import Mathlib

/-!
Verification of the 4get MCP client core (cache + backoff + request
pipeline + config validation), shallowly embedded from the Python source
files `src/cache.py`, `src/client.py`, `src/config.py`, `src/errors.py`.

Python floats are modelled as rationals (ℚ), Python ints as ℤ where they
can be negative and ℕ where the source guarantees non-negativity (loop
counters produced by `range`). Python dicts are modelled as
insertion-ordered association lists with unique keys maintained by the
update operation (update-in-place for an existing key, append otherwise),
which matches CPython dict semantics. Exceptions are modelled with
`Except` / explicit error results.
-/

/-- Embeds `CacheEntry` from `src/cache.py`: a cached value together with
its absolute expiry time (`expires_at`).  The cached JSON document is
abstracted to a ℕ identity, since the cache never inspects it. -/
structure CacheEntry where
  value : Nat
  expires_at : ℚ
deriving DecidableEq, Repr

/-- `CacheEntry.expired` from `src/cache.py`: an entry is expired when the
current time has reached `expires_at` (`current >= self.expires_at`). -/
def CacheEntry.expired (e : CacheEntry) (now : ℚ) : Bool :=
  now ≥ e.expires_at

/-- Embeds the mutable state of `TTLCache` from `src/cache.py`: the
configured ttl and maxsize (already clamped by `__init__`) and the
insertion-ordered entry mapping. -/
structure TTLCache where
  ttl : ℚ
  maxsize : ℤ
  entries : List (String × CacheEntry)
deriving DecidableEq, Repr

/-- `TTLCache.__init__` from `src/cache.py`:
`self._ttl = max(ttl_seconds, 0.0)` and `self._maxsize = max(1, maxsize)`,
starting from an empty entry mapping. -/
def TTLCache.mkCache (ttl_seconds : ℚ) (maxsize : ℤ) : TTLCache :=
  { ttl := max ttl_seconds 0, maxsize := max 1 maxsize, entries := [] }

/-- Dict lookup `self._entries.get(key)` on the association-list model. -/
def lookupKey : List (String × CacheEntry) → String → Option CacheEntry
  | [], _ => none
  | p :: ps, k => if p.1 = k then some p.2 else lookupKey ps k

/-- Dict deletion `self._entries.pop(key, None)` on the association-list
model: drops every binding of the key (there is at most one, since dict
keys are unique). -/
def removeKey : List (String × CacheEntry) → String → List (String × CacheEntry)
  | [], _ => []
  | p :: ps, k => if p.1 = k then removeKey ps k else p :: removeKey ps k

/-- Dict assignment `self._entries[key] = entry`: replace the binding in
place when the key is present (CPython keeps the original position),
append otherwise. -/
def setKey : List (String × CacheEntry) → String → CacheEntry → List (String × CacheEntry)
  | [], k, e => [(k, e)]
  | p :: ps, k, e => if p.1 = k then (k, e) :: ps else p :: setKey ps k e

/-- `min(self._entries, key=lambda key: self._entries[key].expires_at)`:
the first binding (in insertion order) with minimal `expires_at`.  Python's
`min` returns the first minimal element, which the strict-`<` fold below
reproduces. -/
def minByExpiry : List (String × CacheEntry) → Option (String × CacheEntry)
  | [] => none
  | p :: ps =>
    some (ps.foldl (fun best q =>
      if q.2.expires_at < best.2.expires_at then q else best) p)

/-- `TTLCache._evict_one_locked` from `src/cache.py`: remove the binding
nearest expiry; no-op on an empty store. -/
def TTLCache.evictOne (es : List (String × CacheEntry)) :
    List (String × CacheEntry) :=
  match minByExpiry es with
  | none => es
  | some p => removeKey es p.1

/-- `TTLCache.get` from `src/cache.py`, with the monotonic clock passed
explicitly.  Returns the looked-up value (if present and unexpired) and
the post-state (an expired entry found on `get` is popped). -/
def TTLCache.get (c : TTLCache) (k : String) (now : ℚ) :
    Option Nat × TTLCache :=
  match lookupKey c.entries k with
  | none => (none, c)
  | some e =>
    if e.expired now then
      (none, { c with entries := removeKey c.entries k })
    else
      (some e.value, c)

/-- `TTLCache.set` from `src/cache.py`, with the monotonic clock passed
explicitly: a no-op when `self._ttl == 0`; otherwise builds the entry with
`expires_at = now + ttl`, evicts one entry when
`len(self._entries) >= self._maxsize`, then assigns the key. -/
def TTLCache.set (c : TTLCache) (k : String) (v : Nat) (now : ℚ) : TTLCache :=
  if c.ttl = 0 then c
  else
    let e : CacheEntry := { value := v, expires_at := now + c.ttl }
    let es :=
      if (c.entries.length : ℤ) ≥ c.maxsize then TTLCache.evictOne c.entries
      else c.entries
    { c with entries := setKey es k e }

/-- `TTLCache.clear` from `src/cache.py`. -/
def TTLCache.clear (c : TTLCache) : TTLCache :=
  { c with entries := [] }

/-- A sequence of `set` operations (key, value, clock reading) applied in
order, used to state invariants over every reachable cache state. -/
def TTLCache.runSets (c : TTLCache) : List (String × Nat × ℚ) → TTLCache
  | [] => c
  | (k, v, now) :: ops => TTLCache.runSets (c.set k v now) ops

/-! ## Config (`src/config.py`) -/

/-- Embeds the `Config` dataclass from `src/config.py`.  Floats are ℚ,
ints are ℤ. -/
structure Config where
  base_url : String
  pass_token : Option String
  user_agent : String
  timeout : ℚ
  cache_ttl : ℚ
  cache_maxsize : ℤ
  max_retries : ℤ
  retry_base_delay : ℚ
  retry_max_delay : ℚ
  connection_pool_maxsize : ℤ
  connection_pool_max_keepalive : ℤ
deriving DecidableEq, Repr

/-- The dataclass field defaults of `Config` (`DEFAULT_*` constants in
`src/config.py`; `user_agent` uses the packaged fallback version). -/
def defaultConfig : Config :=
  { base_url := "https://4get.ca"
    pass_token := none
    user_agent := "mcp-4get/0.1.2"
    timeout := 20
    cache_ttl := 600
    cache_maxsize := 128
    max_retries := 3
    retry_base_delay := 1
    retry_max_delay := 60
    connection_pool_maxsize := 10
    connection_pool_max_keepalive := 5 }

/-- The distinct `ValueError`s `Config._validate` can raise, one
constructor per check, each carrying the offending value(s) the Python
message interpolates. -/
inductive ConfigError where
  | invalidBaseUrl (url : String)
  | badScheme (url : String)
  | timeoutNotPositive (t : ℚ)
  | cacheTtlNegative (t : ℚ)
  | cacheMaxsizeTooSmall (n : ℤ)
  | maxRetriesNegative (n : ℤ)
  | retryBaseDelayNotPositive (d : ℚ)
  | retryMaxDelayNotPositive (d : ℚ)
  | retryDelayOrdering (base maxd : ℚ)
  | poolMaxsizeTooSmall (n : ℤ)
  | poolKeepaliveTooSmall (n : ℤ)
  | poolOrdering (keepalive maxsize : ℤ)
deriving DecidableEq, Repr

/-- Splits a character list at the first occurrence of `://`, returning
the text before it and the text after it. -/
def splitSchemeAux : List Char → List Char → Option (List Char × List Char)
  | _, [] => none
  | acc, ':' :: '/' :: '/' :: rest => some (acc.reverse, rest)
  | acc, ch :: rest => splitSchemeAux (ch :: acc) rest

/-- Models `urllib.parse.urlparse(url).scheme` / `.netloc` from the
standard library, for URLs of the shape `scheme://netloc[/path]` (the only
shapes the config code distinguishes): the scheme is the text before the
first `://`, the netloc the text after it up to the next `/`; a URL with
no `://` yields an empty scheme and netloc. -/
def urlSchemeNetloc (url : String) : String × String :=
  match splitSchemeAux [] url.data with
  | none => ("", "")
  | some (scheme, rest) => (⟨scheme⟩, ⟨rest.takeWhile (fun ch => ¬ ch = '/')⟩)

/-- `Config._validate` from `src/config.py`: the checks, in source order,
each modelled as an `Except.error` with the corresponding
`ConfigError`. -/
def Config.validate (c : Config) : Except ConfigError Config :=
  if (urlSchemeNetloc c.base_url).1 = "" ∨ (urlSchemeNetloc c.base_url).2 = "" then
    .error (.invalidBaseUrl c.base_url)
  else if ¬ ((urlSchemeNetloc c.base_url).1 = "http" ∨
      (urlSchemeNetloc c.base_url).1 = "https") then
    .error (.badScheme c.base_url)
  else if c.timeout ≤ 0 then .error (.timeoutNotPositive c.timeout)
  else if c.cache_ttl < 0 then .error (.cacheTtlNegative c.cache_ttl)
  else if c.cache_maxsize < 1 then .error (.cacheMaxsizeTooSmall c.cache_maxsize)
  else if c.max_retries < 0 then .error (.maxRetriesNegative c.max_retries)
  else if c.retry_base_delay ≤ 0 then
    .error (.retryBaseDelayNotPositive c.retry_base_delay)
  else if c.retry_max_delay ≤ 0 then
    .error (.retryMaxDelayNotPositive c.retry_max_delay)
  else if c.retry_base_delay > c.retry_max_delay then
    .error (.retryDelayOrdering c.retry_base_delay c.retry_max_delay)
  else if c.connection_pool_maxsize < 1 then
    .error (.poolMaxsizeTooSmall c.connection_pool_maxsize)
  else if c.connection_pool_max_keepalive < 1 then
    .error (.poolKeepaliveTooSmall c.connection_pool_max_keepalive)
  else if c.connection_pool_max_keepalive > c.connection_pool_maxsize then
    .error (.poolOrdering c.connection_pool_max_keepalive c.connection_pool_maxsize)
  else .ok c

/-- The outcome of reading one numeric environment variable, abstracting
`environ.get(name)` followed by `cast(raw)` in `_read_number`
(`src/config.py`): the variable is unset (or set to the empty string,
which `if not raw` treats the same), set but failing the numeric cast, or
set and parsing to a value. -/
inductive EnvRead (α : Type) where
  | unset
  | malformed
  | val (v : α)
deriving DecidableEq, Repr

/-- `_read_number` from `src/config.py` over the abstracted read outcome:
the default on unset/empty or failed cast, the default when a configured
minimum is violated, the parsed value otherwise. -/
def readNumber {α : Type} [LinearOrder α] (raw : EnvRead α) (default : α)
    (minimum : Option α) : α :=
  match raw with
  | .unset => default
  | .malformed => default
  | .val v =>
    match minimum with
    | none => v
    | some m => if v < m then default else v

/-- The environment slice `Config.from_env` reads: the three string
variables as raw `environ.get` results, the numeric variables as
`EnvRead` outcomes of their respective casts. -/
structure Env where
  base_url : Option String
  pass_token : Option String
  user_agent : Option String
  timeout : EnvRead ℚ
  cache_ttl : EnvRead ℚ
  cache_maxsize : EnvRead ℤ
  max_retries : EnvRead ℤ
  retry_base_delay : EnvRead ℚ
  retry_max_delay : EnvRead ℚ
  connection_pool_maxsize : EnvRead ℤ
  connection_pool_max_keepalive : EnvRead ℤ
deriving Repr

/-- The all-unset environment. -/
def Env.empty : Env :=
  { base_url := none, pass_token := none, user_agent := none
    timeout := .unset, cache_ttl := .unset, cache_maxsize := .unset
    max_retries := .unset, retry_base_delay := .unset, retry_max_delay := .unset
    connection_pool_maxsize := .unset, connection_pool_max_keepalive := .unset }

/-- `str.rstrip('/')` from Python, used on the base URL. -/
def rstripSlash (s : String) : String :=
  ⟨(s.data.reverse.dropWhile (fun ch => ch = '/')).reverse⟩

/-- The `Config` object `Config.from_env` assembles before calling
`_validate` (`src/config.py` lines 89–132): `environ.get` with defaults
for the strings (the user agent treats the empty string as unset via
`or`), `_read_number` with the per-field minimums for the numbers.
`timeout` and `cache_ttl` are read with no minimum. -/
def Config.buildFromEnv (env : Env) : Config :=
  { base_url := rstripSlash (env.base_url.getD "https://4get.ca")
    pass_token := env.pass_token
    user_agent :=
      match env.user_agent with
      | none => "mcp-4get/0.1.2"
      | some s => if s = "" then "mcp-4get/0.1.2" else s
    timeout := readNumber env.timeout 20 none
    cache_ttl := readNumber env.cache_ttl 600 none
    cache_maxsize := readNumber env.cache_maxsize 128 (some 1)
    max_retries := readNumber env.max_retries 3 (some 0)
    retry_base_delay := readNumber env.retry_base_delay 1 (some (1/10))
    retry_max_delay := readNumber env.retry_max_delay 60 (some 1)
    connection_pool_maxsize := readNumber env.connection_pool_maxsize 10 (some 1)
    connection_pool_max_keepalive :=
      readNumber env.connection_pool_max_keepalive 5 (some 1) }

/-- `Config.from_env`: build from the environment, then `_validate`. -/
def Config.fromEnv (env : Env) : Except ConfigError Config :=
  (Config.buildFromEnv env).validate

/-! ## Backoff calculator and request pipeline (`src/client.py`,
`src/errors.py`) -/

/-- `FourGetClient._calculate_backoff_delay` from `src/client.py`, with
the `random.random()` draw `r ∈ [0, 1)` passed explicitly:
`delay = base * 2^attempt`, capped at `max_delay`, jittered by
`delay * 0.25 * (2r − 1)`, floored at `0.1`. -/
def calcBackoff (base maxd : ℚ) (attempt : ℕ) (r : ℚ) : ℚ :=
  let delay := base * 2 ^ attempt
  let delay := min delay maxd
  let jitter := delay * (1/4) * (2 * r - 1)
  max (1/10) (delay + jitter)

/-- The JSON envelope of a 2xx response as far as `_request` inspects it:
the `status`, `message`, `error` and `detail` fields (absent-or-string),
plus an abstract identity for the rest of the document. -/
structure JsonBody where
  status : Option String
  message : Option String
  errorField : Option String
  detail : Option String
  payload : Nat
deriving DecidableEq, Repr

/-- One HTTP attempt's outcome as `httpx` reports it to `_request`: a 2xx
response whose body parses (or fails to parse) as JSON, a non-2xx status
raised by `raise_for_status`, a connect error, a timeout, or another
`httpx.HTTPError`. -/
inductive HttpOutcome where
  | success (body : Option JsonBody)
  | statusError (code : ℕ)
  | connectError
  | timeoutError
  | otherHttpError
deriving DecidableEq, Repr

/-- What a `FourGetTransportError` wraps (`src/errors.py`). -/
inductive TransportCause where
  | httpStatus (code : ℕ)
  | jsonParse
  | connect
  | timeout
  | otherHttp
deriving DecidableEq, Repr

/-- The exception hierarchy of `src/errors.py` as far as `_request`
raises it. -/
inductive FourGetErr where
  | auth (msg : String)
  | api (status : String) (message : Option String)
  | transport (cause : TransportCause)
  | generic (msg : String)
deriving DecidableEq, Repr

/-- Python `a or b` on optional strings: `a` when truthy (present and
non-empty), else `b`. -/
def pyOr (a b : Option String) : Option String :=
  match a with
  | none => b
  | some s => if s = "" then b else some s

deriving instance DecidableEq for Except

/-- The observable behaviour of one `_request` call: how many HTTP calls
were issued, the sleeps performed between attempts, whether the defensive
fall-through after the loop was reached, and the final result. -/
structure Trace where
  calls : ℕ
  sleeps : List ℚ
  fellThrough : Bool
  result : Except FourGetErr JsonBody
deriving DecidableEq, Repr

/-- The retry loop of `FourGetClient._request` (`src/client.py` lines
217–274), from attempt index `attempt` with `fuel` loop iterations left
and the pending `last_exception`.  Each iteration consults the attempt's
outcome, classifies it exactly as the `except` clauses do (429 and
connect/timeout retry while `attempt < max_retries`, sleeping the
backoff delay; everything else is terminal), and the fuel-exhausted case
is the fall-through after the loop. -/
def loopFrom (cfg : Config) (outcomes : ℕ → HttpOutcome) (rand : ℕ → ℚ) :
    ℕ → ℕ → Option FourGetErr → Trace
  | _, 0, lastExc =>
    { calls := 0, sleeps := [], fellThrough := true
      result := .error (lastExc.getD (.generic "Unexpected error in retry loop")) }
  | attempt, fuel + 1, _ =>
    match outcomes attempt with
    | .success none =>
      { calls := 1, sleeps := [], fellThrough := false
        result := .error (.transport .jsonParse) }
    | .success (some body) =>
      match body.status with
      | none =>
        { calls := 1, sleeps := [], fellThrough := false
          result := .error (.generic "Missing 'status' field in 4get response") }
      | some st =>
        if st = "ok" then
          { calls := 1, sleeps := [], fellThrough := false, result := .ok body }
        else
          { calls := 1, sleeps := [], fellThrough := false
            result := .error (.api st (pyOr (pyOr body.message body.errorField) body.detail)) }
    | .statusError code =>
      if code = 429 then
        if (attempt : ℤ) < cfg.max_retries then
          let d := calcBackoff cfg.retry_base_delay cfg.retry_max_delay attempt (rand attempt)
          let t := loopFrom cfg outcomes rand (attempt + 1) fuel
            (some (.auth "Rate limited or invalid pass token"))
          { calls := t.calls + 1, sleeps := d :: t.sleeps
            fellThrough := t.fellThrough, result := t.result }
        else
          { calls := 1, sleeps := [], fellThrough := false
            result := .error (.auth "Rate limited or invalid pass token") }
      else
        { calls := 1, sleeps := [], fellThrough := false
          result := .error (.transport (.httpStatus code)) }
    | .connectError =>
      if (attempt : ℤ) < cfg.max_retries then
        let d := calcBackoff cfg.retry_base_delay cfg.retry_max_delay attempt (rand attempt)
        let t := loopFrom cfg outcomes rand (attempt + 1) fuel
          (some (.transport .connect))
        { calls := t.calls + 1, sleeps := d :: t.sleeps
          fellThrough := t.fellThrough, result := t.result }
      else
        { calls := 1, sleeps := [], fellThrough := false
          result := .error (.transport .connect) }
    | .timeoutError =>
      if (attempt : ℤ) < cfg.max_retries then
        let d := calcBackoff cfg.retry_base_delay cfg.retry_max_delay attempt (rand attempt)
        let t := loopFrom cfg outcomes rand (attempt + 1) fuel
          (some (.transport .timeout))
        { calls := t.calls + 1, sleeps := d :: t.sleeps
          fellThrough := t.fellThrough, result := t.result }
      else
        { calls := 1, sleeps := [], fellThrough := false
          result := .error (.transport .timeout) }
    | .otherHttpError =>
      { calls := 1, sleeps := [], fellThrough := false
        result := .error (.transport .otherHttp) }

/-- `FourGetClient._request`: the retry loop entered at attempt 0 with
`range(max_retries + 1)` iterations and no pending exception. -/
def request (cfg : Config) (outcomes : ℕ → HttpOutcome) (rand : ℕ → ℚ) : Trace :=
  loopFrom cfg outcomes rand 0 (cfg.max_retries + 1).toNat none

/-- `FourGetClient._prepare_search_params`: `{'npt': token}` when the page
token is truthy, else `{'s': query}`, then a dict `update` with the
non-`None` options in order.  Parameter values are modelled as strings
and option values as `Option String` so that `None` skipping is
observable. -/
def updateParam : List (String × String) → String → String → List (String × String)
  | [], k, v => [(k, v)]
  | p :: ps, k, v => if p.1 = k then (k, v) :: ps else p :: updateParam ps k v

/-- Lookup in the assembled parameter dict. -/
def lookupParam : List (String × String) → String → Option String
  | [], _ => none
  | p :: ps, k => if p.1 = k then some p.2 else lookupParam ps k

/-- The `params.update({...})` step: apply the options in order, skipping
`None` values. -/
def applyOptions (ps : List (String × String)) :
    List (String × Option String) → List (String × String)
  | [] => ps
  | p :: opts =>
    applyOptions
      (match p.2 with
       | none => ps
       | some v => updateParam ps p.1 v) opts

/-- `FourGetClient._prepare_search_params` from `src/client.py` lines
276–285. -/
def prepareSearchParams (query : String) (page_token : Option String)
    (options : List (String × Option String)) : List (String × String) :=
  let params :=
    match page_token with
    | some t => if t = "" then [("s", query)] else [("npt", t)]
    | none => [("s", query)]
  applyOptions params options

/-- Inserting the keyed values `(keys i, vals i)` at clock readings
`times i`, for `i = 0, 1, …, n−1` in order. -/
def insertSeq (c : TTLCache) (keys : ℕ → String) (vals : ℕ → ℕ)
    (times : ℕ → ℚ) : ℕ → TTLCache
  | 0 => c
  | n + 1 => (insertSeq c keys vals times n).set (keys n) (vals n) (times n)

/-! ## Theorems -/

/-- Inversion for `Config.validate`: a validated config is returned
unchanged and satisfies every numeric range check. -/
lemma validate_ok_inv {c c' : Config} (h : Config.validate c = .ok c') :
    c' = c ∧ 0 < c.timeout ∧ 0 ≤ c.cache_ttl ∧ 1 ≤ c.cache_maxsize ∧
    0 ≤ c.max_retries ∧ 0 < c.retry_base_delay ∧ 0 < c.retry_max_delay ∧
    c.retry_base_delay ≤ c.retry_max_delay ∧ 1 ≤ c.connection_pool_maxsize ∧
    1 ≤ c.connection_pool_max_keepalive ∧
    c.connection_pool_max_keepalive ≤ c.connection_pool_maxsize := by
  unfold Config.validate at h
  by_cases h1 : (urlSchemeNetloc c.base_url).1 = "" ∨ (urlSchemeNetloc c.base_url).2 = ""
  · rw [if_pos h1] at h
    exact absurd h (by simp)
  rw [if_neg h1] at h
  by_cases h2 : ¬ ((urlSchemeNetloc c.base_url).1 = "http" ∨
      (urlSchemeNetloc c.base_url).1 = "https")
  · rw [if_pos h2] at h
    exact absurd h (by simp)
  rw [if_neg h2] at h
  by_cases h3 : c.timeout ≤ 0
  · rw [if_pos h3] at h
    exact absurd h (by simp)
  rw [if_neg h3] at h
  by_cases h4 : c.cache_ttl < 0
  · rw [if_pos h4] at h
    exact absurd h (by simp)
  rw [if_neg h4] at h
  by_cases h5 : c.cache_maxsize < 1
  · rw [if_pos h5] at h
    exact absurd h (by simp)
  rw [if_neg h5] at h
  by_cases h6 : c.max_retries < 0
  · rw [if_pos h6] at h
    exact absurd h (by simp)
  rw [if_neg h6] at h
  by_cases h7 : c.retry_base_delay ≤ 0
  · rw [if_pos h7] at h
    exact absurd h (by simp)
  rw [if_neg h7] at h
  by_cases h8 : c.retry_max_delay ≤ 0
  · rw [if_pos h8] at h
    exact absurd h (by simp)
  rw [if_neg h8] at h
  by_cases h9 : c.retry_base_delay > c.retry_max_delay
  · rw [if_pos h9] at h
    exact absurd h (by simp)
  rw [if_neg h9] at h
  by_cases h10 : c.connection_pool_maxsize < 1
  · rw [if_pos h10] at h
    exact absurd h (by simp)
  rw [if_neg h10] at h
  by_cases h11 : c.connection_pool_max_keepalive < 1
  · rw [if_pos h11] at h
    exact absurd h (by simp)
  rw [if_neg h11] at h
  by_cases h12 : c.connection_pool_max_keepalive > c.connection_pool_maxsize
  · rw [if_pos h12] at h
    exact absurd h (by simp)
  rw [if_neg h12] at h
  rw [Except.ok.injEq] at h
  subst h
  push_neg at h3 h4 h7 h8 h9
  exact ⟨rfl, h3, h4, by omega, by omega, h7, h8, h9, by omega, by omega, by omega⟩

/-- **C8.** For every TTLCache configured with TTL = 0, `set` is a
complete no-op (the entry mapping is unchanged), and therefore `set`
followed by `get` on the same key returns absent. -/
theorem c8_ttl_zero_disables_cache (c : TTLCache) (h : c.ttl = 0)
    (k : String) (v : Nat) (now now2 : ℚ) :
    c.set k v now = c ∧
    (c.entries = [] → ((c.set k v now).get k now2).1 = none) := by
  have hset : c.set k v now = c := by
    simp [TTLCache.set, h]
  refine ⟨hset, fun hemp => ?_⟩
  rw [hset]
  simp [TTLCache.get, hemp, lookupKey]

/-- Witness for C8 at a concrete freshly-constructed cache. -/
theorem c8_witness :
    (TTLCache.mkCache 0 5).ttl = 0 ∧
    ((TTLCache.mkCache 0 5).set "a" 7 3 = TTLCache.mkCache 0 5 ∧
      ((TTLCache.mkCache 0 5).entries = [] →
        (((TTLCache.mkCache 0 5).set "a" 7 3).get "a" 9).1 = none)) :=
  ⟨by decide, c8_ttl_zero_disables_cache (TTLCache.mkCache 0 5) (by decide) "a" 7 3 9⟩

/-- **C10.** The TTLCache constructor never raises: a negative TTL is
clamped to 0 (so the cache behaves exactly as if caching were disabled)
and a maxsize below 1 is clamped to 1 — unlike the Config validator,
which rejects `cache_maxsize < 1` with an error. -/
theorem c10_constructor_clamps (t : ℚ) (m : ℤ) (k : String) (v : Nat)
    (now : ℚ) (cfg : Config) :
    (TTLCache.mkCache t m).ttl = max t 0 ∧
    (TTLCache.mkCache t m).maxsize = max 1 m ∧
    (t ≤ 0 → (TTLCache.mkCache t m).set k v now = TTLCache.mkCache t m) ∧
    (cfg.cache_maxsize < 1 → (Config.validate cfg).isOk = false) := by
  refine ⟨rfl, rfl, fun ht => ?_, fun hm => ?_⟩
  · have h0 : (TTLCache.mkCache t m).ttl = 0 := by
      simp [TTLCache.mkCache, max_eq_right ht]
    simp [TTLCache.set, h0]
  · cases hv : Config.validate cfg with
    | error e => rfl
    | ok c' =>
      exfalso
      have := (validate_ok_inv hv).2.2.2.1
      omega

/-- Witness for C10 at concrete clamped inputs. -/
theorem c10_witness :
    (-1 : ℚ) ≤ 0 ∧
    ({ defaultConfig with cache_maxsize := 0 } : Config).cache_maxsize < 1 ∧
    (TTLCache.mkCache (-1) 0).ttl = max (-1) 0 ∧
    (TTLCache.mkCache (-1) 0).maxsize = max 1 0 ∧
    (TTLCache.mkCache (-1) 0).set "a" 4 2 = TTLCache.mkCache (-1) 0 ∧
    (Config.validate { defaultConfig with cache_maxsize := 0 }).isOk = false := by
  have h := c10_constructor_clamps (-1) 0 "a" 4 2 { defaultConfig with cache_maxsize := 0 }
  exact ⟨by norm_num, by decide, h.1, h.2.1, h.2.2.1 (by norm_num), h.2.2.2 (by decide)⟩

/-- **C6.** A non-2xx status other than 429 on the first attempt makes the
pipeline raise a transport-class error immediately: exactly one HTTP
call, no backoff sleep, no retry, regardless of how many retries
remain. -/
theorem c6_non429_fails_immediately (cfg : Config) (outcomes : ℕ → HttpOutcome)
    (rand : ℕ → ℚ) (code : ℕ) (hmr : 0 ≤ cfg.max_retries) (hcode : code ≠ 429)
    (h0 : outcomes 0 = .statusError code) :
    request cfg outcomes rand =
      { calls := 1, sleeps := [], fellThrough := false
        result := .error (.transport (.httpStatus code)) } := by
  obtain ⟨f, hf⟩ : ∃ f, (cfg.max_retries + 1).toNat = f + 1 :=
    ⟨cfg.max_retries.toNat, by omega⟩
  rw [request, hf]
  simp [loopFrom, h0, hcode]

/-- Shifting the attempt index out of a `List.range` of backoff delays. -/
lemma range_map_delay_shift (base maxd : ℚ) (rand : ℕ → ℚ) (a f : ℕ) :
    (List.range (f + 1)).map (fun i => calcBackoff base maxd (a + i) (rand (a + i))) =
      calcBackoff base maxd a (rand a) ::
        (List.range f).map (fun i =>
          calcBackoff base maxd (a + 1 + i) (rand (a + 1 + i))) := by
  rw [List.range_succ_eq_map, List.map_cons, Nat.add_zero, List.map_map]
  congr 1
  apply List.map_congr_left
  intro i _
  have h : a + (i + 1) = a + 1 + i := by omega
  simp [Function.comp, Nat.succ_eq_add_one, h]

/-- Behaviour of the retry loop when every attempt yields HTTP 429:
`fuel` calls, one backoff sleep between consecutive attempts, and the
auth error, provided the loop invariant `attempt + fuel = max_retries + 1`
holds. -/
lemma loopFrom_all429 (cfg : Config) (outcomes : ℕ → HttpOutcome)
    (rand : ℕ → ℚ) (h429 : ∀ n, outcomes n = .statusError 429) :
    ∀ (f attempt : ℕ) (lastExc : Option FourGetErr),
      (attempt : ℤ) + (f + 1) = cfg.max_retries + 1 →
      loopFrom cfg outcomes rand attempt (f + 1) lastExc =
        { calls := f + 1
          sleeps := (List.range f).map (fun i =>
            calcBackoff cfg.retry_base_delay cfg.retry_max_delay (attempt + i)
              (rand (attempt + i)))
          fellThrough := false
          result := .error (.auth "Rate limited or invalid pass token") } := by
  intro f
  induction f with
  | zero =>
    intro attempt lastExc hinv
    have hlast : ¬ ((attempt : ℤ) < cfg.max_retries) := by omega
    simp [loopFrom, h429 attempt, hlast]
  | succ f ih =>
    intro attempt lastExc hinv
    have hlt : (attempt : ℤ) < cfg.max_retries := by push_cast at hinv ⊢; omega
    have hrec := ih (attempt + 1) (some (.auth "Rate limited or invalid pass token"))
      (by push_cast at hinv ⊢; omega)
    rw [range_map_delay_shift]
    generalize hF : f + 1 = F at hrec ⊢
    simp only [loopFrom, h429 attempt, if_pos hlt, hrec, if_true, eq_self_iff_true]

/-- **C1.** With `max_retries = R`, if every HTTP attempt returns status
429 then `_request` issues exactly `R + 1` HTTP calls, sleeps the
computed backoff delay between consecutive attempts (delays for attempts
`0, …, R−1`), and finally raises the auth-class error. -/
theorem c1_persistent_429_exhausts_retries (cfg : Config)
    (outcomes : ℕ → HttpOutcome) (rand : ℕ → ℚ) (R : ℕ)
    (hmr : cfg.max_retries = (R : ℤ))
    (h429 : ∀ n, outcomes n = .statusError 429) :
    (request cfg outcomes rand).calls = R + 1 ∧
    (request cfg outcomes rand).sleeps = (List.range R).map (fun i =>
      calcBackoff cfg.retry_base_delay cfg.retry_max_delay i (rand i)) ∧
    (request cfg outcomes rand).result =
      .error (.auth "Rate limited or invalid pass token") := by
  have hfuel : (cfg.max_retries + 1).toNat = R + 1 := by omega
  have h := loopFrom_all429 cfg outcomes rand h429 R 0 none (by omega)
  rw [request, hfuel, h]
  refine ⟨rfl, by simp, rfl⟩

/-- Witness for C1: the default configuration (3 retries), every attempt
rate-limited. -/
theorem c1_witness :
    defaultConfig.max_retries = ((3 : ℕ) : ℤ) ∧
    (∀ n : ℕ, (fun _ : ℕ => HttpOutcome.statusError 429) n = .statusError 429) ∧
    (request defaultConfig (fun _ => .statusError 429) (fun _ => 1/2)).calls = 3 + 1 ∧
    (request defaultConfig (fun _ => .statusError 429) (fun _ => 1/2)).sleeps =
      (List.range 3).map (fun i =>
        calcBackoff defaultConfig.retry_base_delay defaultConfig.retry_max_delay i
          ((fun _ : ℕ => (1/2 : ℚ)) i)) ∧
    (request defaultConfig (fun _ => .statusError 429) (fun _ => 1/2)).result =
      .error (.auth "Rate limited or invalid pass token") := by
  have h := c1_persistent_429_exhausts_retries defaultConfig
    (fun _ => .statusError 429) (fun _ => 1/2) 3 (by decide) (fun _ => rfl)
  exact ⟨by decide, fun _ => rfl, h.1, h.2.1, h.2.2⟩

/-- Strengthened loop safety: with the invariant
`attempt + fuel = max_retries + 1` and positive fuel, the loop never hits
the fall-through branch and never produces the defensive generic
error. -/
lemma loopFrom_no_fallthrough (cfg : Config) (outcomes : ℕ → HttpOutcome)
    (rand : ℕ → ℚ) :
    ∀ (f attempt : ℕ) (lastExc : Option FourGetErr),
      (attempt : ℤ) + (f + 1) = cfg.max_retries + 1 →
      (loopFrom cfg outcomes rand attempt (f + 1) lastExc).fellThrough = false ∧
      (loopFrom cfg outcomes rand attempt (f + 1) lastExc).result ≠
        .error (.generic "Unexpected error in retry loop") := by
  intro f
  induction f with
  | zero =>
    intro attempt lastExc hinv
    have hlast : ¬ ((attempt : ℤ) < cfg.max_retries) := by omega
    cases houtcome : outcomes attempt with
    | success body =>
      cases body with
      | none => simp [loopFrom, houtcome]
      | some b =>
        cases hst : b.status with
        | none => simp [loopFrom, houtcome, hst]
        | some st =>
          by_cases hok : st = "ok" <;> simp [loopFrom, houtcome, hst, hok]
    | statusError code =>
      by_cases hc : code = 429 <;> simp [loopFrom, houtcome, hc, hlast]
    | connectError => simp [loopFrom, houtcome, hlast]
    | timeoutError => simp [loopFrom, houtcome, hlast]
    | otherHttpError => simp [loopFrom, houtcome]
  | succ f ih =>
    intro attempt lastExc hinv
    have hlt : (attempt : ℤ) < cfg.max_retries := by push_cast at hinv ⊢; omega
    have hinv' : ((attempt + 1 : ℕ) : ℤ) + (f + 1) = cfg.max_retries + 1 := by
      push_cast at hinv ⊢; omega
    cases houtcome : outcomes attempt with
    | success body =>
      cases body with
      | none => simp [loopFrom, houtcome]
      | some b =>
        cases hst : b.status with
        | none => simp [loopFrom, houtcome, hst]
        | some st =>
          by_cases hok : st = "ok" <;> simp [loopFrom, houtcome, hst, hok]
    | statusError code =>
      by_cases hc : code = 429
      · subst hc
        have hrec := ih (attempt + 1)
          (some (.auth "Rate limited or invalid pass token")) hinv'
        generalize hF : f + 1 = F at hrec ⊢
        simp only [loopFrom, houtcome, if_pos hlt, if_pos rfl]
        exact ⟨hrec.1, hrec.2⟩
      · simp [loopFrom, houtcome, hc]
    | connectError =>
      have hrec := ih (attempt + 1) (some (.transport .connect)) hinv'
      generalize hF : f + 1 = F at hrec ⊢
      simp only [loopFrom, houtcome, if_pos hlt]
      exact ⟨hrec.1, hrec.2⟩
    | timeoutError =>
      have hrec := ih (attempt + 1) (some (.transport .timeout)) hinv'
      generalize hF : f + 1 = F at hrec ⊢
      simp only [loopFrom, houtcome, if_pos hlt]
      exact ⟨hrec.1, hrec.2⟩
    | otherHttpError => simp [loopFrom, houtcome]

/-- **C9.** With `max_retries ≥ 0`, every `_request` invocation terminates
inside the loop body — the defensive fall-through branch after the loop
(the generic 'Unexpected error in retry loop') is unreachable. -/
theorem c9_fallthrough_unreachable (cfg : Config) (outcomes : ℕ → HttpOutcome)
    (rand : ℕ → ℚ) (hmr : 0 ≤ cfg.max_retries) :
    (request cfg outcomes rand).fellThrough = false ∧
    (request cfg outcomes rand).result ≠
      .error (.generic "Unexpected error in retry loop") := by
  obtain ⟨f, hf⟩ : ∃ f, (cfg.max_retries + 1).toNat = f + 1 :=
    ⟨cfg.max_retries.toNat, by omega⟩
  rw [request, hf]
  exact loopFrom_no_fallthrough cfg outcomes rand f 0 none (by omega)

/-- Witness for C9: a connect-error-only run under the default
configuration. -/
theorem c9_witness :
    0 ≤ defaultConfig.max_retries ∧
    (request defaultConfig (fun _ => .connectError) (fun _ => 0)).fellThrough = false ∧
    (request defaultConfig (fun _ => .connectError) (fun _ => 0)).result ≠
      .error (.generic "Unexpected error in retry loop") :=
  ⟨by decide,
    c9_fallthrough_unreachable defaultConfig (fun _ => .connectError) (fun _ => 0)
      (by decide)⟩

/-- **C3, counterexample.** The claim asserts the delay always lies within
`[0.75·m, 1.25·m]` for `m = min(base·2^n, max_delay)` *and* is never
below 0.1s.  With `base_delay = 0.01 > 0`, `max_delay = 1 ≥ base_delay`,
attempt 0 and jitter draw `r = 1/2` (jitter 0), the computed delay is the
floor 0.1, which exceeds the claimed upper bound `1.25·m = 0.0125`. -/
theorem c3_counterexample :
    (0 : ℚ) < 1/100 ∧ (1/100 : ℚ) ≤ 1 ∧ (0 : ℚ) ≤ 1/2 ∧ (1/2 : ℚ) < 1 ∧
    calcBackoff (1/100) 1 0 (1/2) = 1/10 ∧
    ¬ calcBackoff (1/100) 1 0 (1/2) ≤ (5/4) * min ((1/100 : ℚ) * 2 ^ (0 : ℕ)) 1 := by
  refine ⟨by norm_num, by norm_num, by norm_num, by norm_num, ?_, ?_⟩ <;>
    norm_num [calcBackoff]

/-- **C3, amended.** For `base_delay > 0`, `max_delay ≥ base_delay`,
attempt `n` and jitter draw `r ∈ [0, 1)`, the backoff delay lies within
`[max(0.1, 0.75·m), max(0.1, 1.25·m)]` for `m = min(base·2^n, max_delay)`
and is never below 0.1s: the 0.1s floor is applied after the jittered
interval, so the delay escapes `[0.75·m, 1.25·m]` exactly when that
interval lies below the floor. -/
theorem c3_amended_backoff_bounds (base maxd r : ℚ) (n : ℕ) (hb : 0 < base)
    (hbm : base ≤ maxd) (hr0 : 0 ≤ r) (hr1 : r < 1) :
    max (1/10) ((3/4) * min (base * 2 ^ n) maxd) ≤ calcBackoff base maxd n r ∧
    calcBackoff base maxd n r ≤ max (1/10) ((5/4) * min (base * 2 ^ n) maxd) ∧
    (1/10 : ℚ) ≤ calcBackoff base maxd n r := by
  have hm : 0 < min (base * 2 ^ n) maxd := by
    apply lt_min
    · positivity
    · linarith
  set m := min (base * 2 ^ n) maxd with hmdef
  have hlow : (3/4) * m ≤ m + m * (1/4) * (2 * r - 1) := by nlinarith
  have hhigh : m + m * (1/4) * (2 * r - 1) ≤ (5/4) * m := by nlinarith
  have hcalc : calcBackoff base maxd n r = max (1/10) (m + m * (1/4) * (2 * r - 1)) := by
    simp only [calcBackoff, hmdef]
  rw [hcalc]
  exact ⟨max_le_max le_rfl hlow, max_le_max le_rfl hhigh, le_max_left _ _⟩

/-- Witness for the amended C3 at base 1, cap 60, attempt 2, jitter draw
3/4. -/
theorem c3_witness :
    (0 : ℚ) < 1 ∧ (1 : ℚ) ≤ 60 ∧ (0 : ℚ) ≤ 3/4 ∧ (3/4 : ℚ) < 1 ∧
    (max (1/10) ((3/4) * min ((1 : ℚ) * 2 ^ (2 : ℕ)) 60) ≤ calcBackoff 1 60 2 (3/4) ∧
      calcBackoff 1 60 2 (3/4) ≤ max (1/10) ((5/4) * min ((1 : ℚ) * 2 ^ (2 : ℕ)) 60) ∧
      (1/10 : ℚ) ≤ calcBackoff 1 60 2 (3/4)) :=
  ⟨by norm_num, by norm_num, by norm_num, by norm_num,
    c3_amended_backoff_bounds 1 60 (3/4) 2 (by norm_num) (by norm_num)
      (by norm_num) (by norm_num)⟩

/-- **C5, counterexample.** The claim says the API-class error carries the
first **non-null** of `message`, `error`, `detail`.  With
`message = ""` (non-null) and `error = "E"`, the code's truthiness chain
(`data.get('message') or data.get('error') or data.get('detail')`) skips
the empty string and carries `"E"`, not `""`. -/
theorem c5_counterexample :
    (request defaultConfig
      (fun _ => .success (some
        { status := some "error", message := some "",
          errorField := some "E", detail := none, payload := 0 }))
      (fun _ => 0)).result = .error (.api "error" (some "E")) ∧
    (some "E" : Option String) ≠ some "" := by
  refine ⟨?_, by decide⟩
  decide

/-- **C5, amended.** A 2xx response whose body has a `status` field not
equal to `"ok"` makes the pipeline raise the API-class error immediately
— one HTTP call, no sleep, no retry — carrying that status value and, as
its message, the first *truthy* (present and non-empty) of the body's
`message`, `error` and `detail` fields in that order (falling back to the
raw `detail` value when none is truthy). -/
theorem c5_amended_api_error_immediate (cfg : Config)
    (outcomes : ℕ → HttpOutcome) (rand : ℕ → ℚ) (body : JsonBody) (st : String)
    (hmr : 0 ≤ cfg.max_retries) (h0 : outcomes 0 = .success (some body))
    (hst : body.status = some st) (hok : st ≠ "ok") :
    request cfg outcomes rand =
      { calls := 1, sleeps := [], fellThrough := false
        result := .error (.api st (pyOr (pyOr body.message body.errorField) body.detail)) } := by
  obtain ⟨f, hf⟩ : ∃ f, (cfg.max_retries + 1).toNat = f + 1 :=
    ⟨cfg.max_retries.toNat, by omega⟩
  rw [request, hf]
  simp [loopFrom, h0, hst, hok]

/-- Witness for the amended C5: body with `status = "error"`,
`message = ""`, `error = "E"`. -/
theorem c5_witness :
    0 ≤ defaultConfig.max_retries ∧
    request defaultConfig
        (fun _ => .success (some
          { status := some "error", message := some "",
            errorField := some "E", detail := none, payload := 0 }))
        (fun _ => 0) =
      { calls := 1, sleeps := [], fellThrough := false
        result := .error (.api "error"
          (pyOr (pyOr (some "") (some "E")) none)) } :=
  ⟨by decide,
    c5_amended_api_error_immediate defaultConfig _ (fun _ => 0)
      { status := some "error", message := some "", errorField := some "E",
        detail := none, payload := 0 } "error" (by decide) rfl rfl (by decide)⟩

/-- The fold inside `minByExpiry` returns its accumulator or a list
element. -/
lemma minByExpiry_foldl_mem (ps : List (String × CacheEntry)) :
    ∀ acc, ps.foldl (fun best q =>
        if q.2.expires_at < best.2.expires_at then q else best) acc = acc ∨
      ps.foldl (fun best q =>
        if q.2.expires_at < best.2.expires_at then q else best) acc ∈ ps := by
  induction ps with
  | nil => intro acc; exact Or.inl rfl
  | cons p ps ih =>
    intro acc
    rcases ih (if p.2.expires_at < acc.2.expires_at then p else acc) with h | h
    · rw [List.foldl_cons, h]
      by_cases hp : p.2.expires_at < acc.2.expires_at
      · right
        simp [hp]
      · left
        simp [hp]
    · right
      rw [List.foldl_cons]
      exact List.mem_cons_of_mem p h

/-- The fold inside `minByExpiry` returns an entry whose expiry is a lower
bound for the accumulator and every list element. -/
lemma minByExpiry_foldl_le (ps : List (String × CacheEntry)) :
    ∀ acc, (ps.foldl (fun best q =>
        if q.2.expires_at < best.2.expires_at then q else best) acc).2.expires_at ≤
        acc.2.expires_at ∧
      ∀ q ∈ ps, (ps.foldl (fun best q =>
        if q.2.expires_at < best.2.expires_at then q else best) acc).2.expires_at ≤
        q.2.expires_at := by
  induction ps with
  | nil => intro acc; exact ⟨le_rfl, by simp⟩
  | cons p ps ih =>
    intro acc
    rw [List.foldl_cons]
    by_cases hp : p.2.expires_at < acc.2.expires_at
    · rw [if_pos hp]
      have h := ih p
      refine ⟨le_trans h.1 hp.le, fun q hq => ?_⟩
      rcases List.mem_cons.mp hq with rfl | hq
      · exact h.1
      · exact h.2 q hq
    · rw [if_neg hp]
      have h := ih acc
      push_neg at hp
      refine ⟨h.1, fun q hq => ?_⟩
      rcases List.mem_cons.mp hq with rfl | hq
      · exact le_trans h.1 hp
      · exact h.2 q hq

/-- `minByExpiry` on a non-empty store returns a member of minimal
expiry. -/
lemma minByExpiry_spec (es : List (String × CacheEntry)) (hne : es ≠ []) :
    ∃ p, minByExpiry es = some p ∧ p ∈ es ∧
      ∀ q ∈ es, p.2.expires_at ≤ q.2.expires_at := by
  cases es with
  | nil => exact absurd rfl hne
  | cons p ps =>
    refine ⟨_, rfl, ?_, ?_⟩
    · rcases minByExpiry_foldl_mem ps p with h | h
      · rw [h]; exact List.mem_cons_self _ _
      · exact List.mem_cons_of_mem p h
    · intro q hq
      have h := minByExpiry_foldl_le ps p
      rcases List.mem_cons.mp hq with rfl | hq
      · exact h.1
      · exact h.2 q hq

/-- If no element of `ps` expires strictly before the accumulator, the
fold keeps the accumulator: Python's `min` returns the first minimal
element. -/
lemma minByExpiry_foldl_const (ps : List (String × CacheEntry)) :
    ∀ acc, (∀ q ∈ ps, ¬ q.2.expires_at < acc.2.expires_at) →
      ps.foldl (fun best q =>
        if q.2.expires_at < best.2.expires_at then q else best) acc = acc := by
  induction ps with
  | nil => intro acc _; rfl
  | cons p ps ih =>
    intro acc h
    rw [List.foldl_cons, if_neg (h p (List.mem_cons_self _ _))]
    exact ih acc (fun q hq => h q (List.mem_cons_of_mem p hq))

/-- `removeKey` never grows the store. -/
lemma removeKey_length_le (es : List (String × CacheEntry)) (k : String) :
    (removeKey es k).length ≤ es.length := by
  induction es with
  | nil => simp [removeKey]
  | cons p ps ih =>
    by_cases hp : p.1 = k <;> simp [removeKey, hp] <;> omega

/-- Removing a key that is present strictly shrinks the store. -/
lemma removeKey_length_lt (es : List (String × CacheEntry)) (k : String)
    (h : ∃ p ∈ es, p.1 = k) : (removeKey es k).length < es.length := by
  induction es with
  | nil => simp at h
  | cons p ps ih =>
    by_cases hp : p.1 = k
    · have := removeKey_length_le ps k
      simp [removeKey, hp]
      omega
    · obtain ⟨q, hq, hqk⟩ := h
      rcases List.mem_cons.mp hq with rfl | hq
      · exact absurd hqk hp
      · have := ih ⟨q, hq, hqk⟩
        simp [removeKey, hp]
        omega

/-- Removing an absent key is a no-op. -/
lemma removeKey_fresh (es : List (String × CacheEntry)) (k : String)
    (h : ∀ p ∈ es, ¬ p.1 = k) : removeKey es k = es := by
  induction es with
  | nil => rfl
  | cons p ps ih =>
    rw [removeKey, if_neg (h p (List.mem_cons_self _ _)),
      ih (fun q hq => h q (List.mem_cons_of_mem p hq))]

/-- `setKey` grows the store by at most one binding. -/
lemma setKey_length_le (es : List (String × CacheEntry)) (k : String)
    (e : CacheEntry) : (setKey es k e).length ≤ es.length + 1 := by
  induction es with
  | nil => simp [setKey]
  | cons p ps ih =>
    by_cases hp : p.1 = k <;> simp [setKey, hp]
    omega

/-- Assigning an absent key appends the binding. -/
lemma setKey_fresh (es : List (String × CacheEntry)) (k : String)
    (e : CacheEntry) (h : ∀ p ∈ es, ¬ p.1 = k) : setKey es k e = es ++ [(k, e)] := by
  induction es with
  | nil => rfl
  | cons p ps ih =>
    rw [setKey, if_neg (h p (List.mem_cons_self _ _)),
      ih (fun q hq => h q (List.mem_cons_of_mem p hq))]
    rfl

/-- `set` leaves the configured ttl unchanged. -/
lemma set_ttl (c : TTLCache) (k : String) (v : Nat) (now : ℚ) :
    (c.set k v now).ttl = c.ttl := by
  unfold TTLCache.set
  split <;> rfl

/-- `set` leaves the configured maxsize unchanged. -/
lemma set_maxsize (c : TTLCache) (k : String) (v : Nat) (now : ℚ) :
    (c.set k v now).maxsize = c.maxsize := by
  unfold TTLCache.set
  split <;> rfl

/-- One `set` preserves the size bound `len(entries) ≤ maxsize`. -/
lemma set_length_le (c : TTLCache) (k : String) (v : Nat) (now : ℚ)
    (hms : 1 ≤ c.maxsize) (hlen : (c.entries.length : ℤ) ≤ c.maxsize) :
    ((c.set k v now).entries.length : ℤ) ≤ c.maxsize := by
  unfold TTLCache.set
  by_cases h0 : c.ttl = 0
  · simpa [h0] using hlen
  by_cases hcap : (c.entries.length : ℤ) ≥ c.maxsize
  · have hlen_eq : (c.entries.length : ℤ) = c.maxsize := le_antisymm hlen hcap
    have hne : c.entries ≠ [] := by
      intro h
      rw [h] at hlen_eq
      simp at hlen_eq
      omega
    obtain ⟨p, hmin, hpmem, _⟩ := minByExpiry_spec c.entries hne
    have hrem : (removeKey c.entries p.1).length < c.entries.length :=
      removeKey_length_lt _ _ ⟨p, hpmem, rfl⟩
    have hsk := setKey_length_le (removeKey c.entries p.1) k
      { value := v, expires_at := now + c.ttl }
    simp only [h0, if_false, hcap, if_true, if_pos hcap, TTLCache.evictOne, hmin]
    omega
  · have hsk := setKey_length_le c.entries k { value := v, expires_at := now + c.ttl }
    simp only [h0, if_false, if_neg hcap]
    push_cast at hcap ⊢
    omega

/-- Every cache reachable by a sequence of `set`s from a state within the
size bound stays within the size bound. -/
lemma runSets_length_le (ops : List (String × Nat × ℚ)) :
    ∀ (c : TTLCache), 1 ≤ c.maxsize → (c.entries.length : ℤ) ≤ c.maxsize →
      ((TTLCache.runSets c ops).entries.length : ℤ) ≤ c.maxsize := by
  induction ops with
  | nil => intro c _ hlen; exact hlen
  | cons op ops ih =>
    intro c hms hlen
    obtain ⟨k, v, now⟩ := op
    have h := ih (c.set k v now) (by rw [set_maxsize]; exact hms)
      (by rw [set_maxsize]; exact set_length_le c k v now hms hlen)
    rw [set_maxsize] at h
    exact h

/-- `insertSeq` never changes the configured ttl. -/
lemma insertSeq_ttl (c : TTLCache) (keys : ℕ → String) (vals : ℕ → ℕ)
    (times : ℕ → ℚ) : ∀ n, (insertSeq c keys vals times n).ttl = c.ttl := by
  intro n
  induction n with
  | zero => exact rfl
  | succ n ih => rw [insertSeq, set_ttl, ih]

/-- `insertSeq` never changes the configured maxsize. -/
lemma insertSeq_maxsize (c : TTLCache) (keys : ℕ → String) (vals : ℕ → ℕ)
    (times : ℕ → ℚ) : ∀ n, (insertSeq c keys vals times n).maxsize = c.maxsize := by
  intro n
  induction n with
  | zero => exact rfl
  | succ n ih => rw [insertSeq, set_maxsize, ih]

/-- Peeling the first element off a mapped `List.range`. -/
lemma range_map_cons {α : Type} (g : ℕ → α) (len : ℕ) :
    (List.range (len + 1)).map g = g 0 :: (List.range len).map (fun j => g (j + 1)) := by
  rw [List.range_succ_eq_map]
  rw [List.map_cons, List.map_map]
  rfl

/-- Peeling the last element off a mapped `List.range`. -/
lemma range_map_snoc {α : Type} (g : ℕ → α) (len : ℕ) :
    (List.range (len + 1)).map g = (List.range len).map g ++ [g len] := by
  rw [List.range_succ, List.map_append]
  rfl

/-- Inserting `n ≤ maxsize` distinct keys into a fresh cache appends them
in order, each with expiry `times i + ttl`; no eviction happens below
capacity. -/
lemma insertSeq_below_cap (t : ℚ) (m : ℤ) (ht : 0 < t) (keys : ℕ → String)
    (vals : ℕ → ℕ) (times : ℕ → ℚ) (M : ℕ) (hM : (M : ℤ) = max 1 m)
    (hinj : ∀ i j, i ≤ M → j ≤ M → keys i = keys j → i = j) :
    ∀ n, n ≤ M → (insertSeq (TTLCache.mkCache t m) keys vals times n).entries =
      (List.range n).map (fun i =>
        (keys i, ({ value := vals i, expires_at := times i + t } : CacheEntry))) := by
  intro n
  induction n with
  | zero => intro _; rfl
  | succ n ih =>
    intro hn1
    have hn := ih (le_trans (Nat.le_succ n) hn1)
    have httl : (insertSeq (TTLCache.mkCache t m) keys vals times n).ttl = t := by
      rw [insertSeq_ttl]
      simp [TTLCache.mkCache, max_eq_left ht.le]
    have hms : (insertSeq (TTLCache.mkCache t m) keys vals times n).maxsize =
        max 1 m := by
      rw [insertSeq_maxsize]
      rfl
    rw [insertSeq]
    unfold TTLCache.set
    rw [httl, hms, hn, if_neg (ne_of_gt ht)]
    have hcap : ¬ ((((List.range n).map (fun i =>
        (keys i, ({ value := vals i, expires_at := times i + t } : CacheEntry)))).length : ℤ) ≥
        max 1 m) := by
      rw [List.length_map, List.length_range]
      omega
    rw [if_neg hcap]
    dsimp only
    rw [setKey_fresh]
    · rw [range_map_snoc (fun i =>
        (keys i, ({ value := vals i, expires_at := times i + t } : CacheEntry))) n]
    · intro p hp
      simp only [List.mem_map, List.mem_range] at hp
      obtain ⟨i, hi, rfl⟩ := hp
      intro hkey
      have := hinj i n (le_trans hi.le (le_trans (Nat.le_succ n) hn1))
        (le_trans (Nat.le_succ n) hn1) hkey
      omega

/-- Inserting `maxsize + 1` distinct keys at nondecreasing clock readings
into a fresh cache evicts exactly the first (soonest-expiring) key: the
final store holds keys `1, …, M` in order. -/
lemma insertSeq_evicts_first (t : ℚ) (m : ℤ) (ht : 0 < t) (keys : ℕ → String)
    (vals : ℕ → ℕ) (times : ℕ → ℚ) (M : ℕ) (hM : (M : ℤ) = max 1 m)
    (hinj : ∀ i j, i ≤ M → j ≤ M → keys i = keys j → i = j)
    (hmono : ∀ i j, i ≤ j → j ≤ M → times i ≤ times j) :
    (insertSeq (TTLCache.mkCache t m) keys vals times (M + 1)).entries =
      (List.range M).map (fun i =>
        (keys (i + 1),
          ({ value := vals (i + 1), expires_at := times (i + 1) + t } : CacheEntry))) := by
  have hM1 : 1 ≤ M := by omega
  obtain ⟨Mm, rfl⟩ : ∃ Mm, M = Mm + 1 := ⟨M - 1, by omega⟩
  have hfull := insertSeq_below_cap t m ht keys vals times (Mm + 1) hM hinj
    (Mm + 1) le_rfl
  have httl : (insertSeq (TTLCache.mkCache t m) keys vals times (Mm + 1)).ttl = t := by
    rw [insertSeq_ttl]
    simp [TTLCache.mkCache, max_eq_left ht.le]
  have hms : (insertSeq (TTLCache.mkCache t m) keys vals times (Mm + 1)).maxsize =
      max 1 m := by
    rw [insertSeq_maxsize]
    rfl
  rw [insertSeq]
  unfold TTLCache.set
  rw [httl, hms, hfull, if_neg (ne_of_gt ht)]
  have hcap : ((((List.range (Mm + 1)).map (fun i =>
      (keys i, ({ value := vals i, expires_at := times i + t } : CacheEntry)))).length : ℤ) ≥
      max 1 m) := by
    rw [List.length_map, List.length_range]
    omega
  rw [if_pos hcap]
  dsimp only
  rw [range_map_cons (fun i =>
    (keys i, ({ value := vals i, expires_at := times i + t } : CacheEntry))) Mm]
  have hmin : minByExpiry
      ((keys 0, ({ value := vals 0, expires_at := times 0 + t } : CacheEntry)) ::
        (List.range Mm).map (fun i =>
          (keys (i + 1),
            ({ value := vals (i + 1), expires_at := times (i + 1) + t } : CacheEntry)))) =
      some (keys 0, ({ value := vals 0, expires_at := times 0 + t } : CacheEntry)) := by
    rw [minByExpiry]
    rw [minByExpiry_foldl_const]
    intro q hq
    simp only [List.mem_map, List.mem_range] at hq
    obtain ⟨i, hi, rfl⟩ := hq
    have := hmono 0 (i + 1) (by omega) (by omega)
    simp only
    linarith
  rw [TTLCache.evictOne, hmin]
  dsimp only
  rw [removeKey]
  rw [if_pos rfl]
  rw [removeKey_fresh]
  · rw [setKey_fresh]
    · rw [range_map_snoc (fun i =>
        (keys (i + 1),
          ({ value := vals (i + 1), expires_at := times (i + 1) + t } : CacheEntry))) Mm]
    · intro p hp
      simp only [List.mem_map, List.mem_range] at hp
      obtain ⟨i, hi, rfl⟩ := hp
      intro hkey
      have := hinj (i + 1) (Mm + 1) (by omega) le_rfl hkey
      omega
  · intro p hp
    simp only [List.mem_map, List.mem_range] at hp
    obtain ⟨i, hi, rfl⟩ := hp
    intro hkey
    have := hinj (i + 1) 0 (by omega) (by omega) hkey
    omega

/-- **C4.** For a cache with TTL > 0 and maxsize ≥ 1: (1) after any
sequence of `set`s from a fresh cache the store holds at most `maxsize`
entries; (2) a `set` on a store at or above capacity removes exactly one
entry — one with the smallest `expires_at` (the first such in insertion
order) — before inserting; (3) inserting `maxsize + 1` distinct keys at
nondecreasing clock readings leaves exactly `maxsize` entries, with the
soonest-expiring (first-inserted) entry evicted. -/
theorem c4_capacity_and_eviction (t : ℚ) (m : ℤ) (keys : ℕ → String)
    (vals : ℕ → ℕ) (times : ℕ → ℚ) (M : ℕ) (ht : 0 < t)
    (hM : (M : ℤ) = max 1 m)
    (hinj : ∀ i j, i ≤ M → j ≤ M → keys i = keys j → i = j)
    (hmono : ∀ i j, i ≤ j → j ≤ M → times i ≤ times j) :
    (∀ ops, (((TTLCache.mkCache t m).runSets ops).entries.length : ℤ) ≤
      (TTLCache.mkCache t m).maxsize) ∧
    (∀ c : TTLCache, 0 < c.ttl → 1 ≤ c.maxsize →
      c.maxsize ≤ (c.entries.length : ℤ) →
      ∃ p, p ∈ c.entries ∧ (∀ q ∈ c.entries, p.2.expires_at ≤ q.2.expires_at) ∧
        ∀ k v now, (c.set k v now).entries =
          setKey (removeKey c.entries p.1) k
            { value := v, expires_at := now + c.ttl }) ∧
    (insertSeq (TTLCache.mkCache t m) keys vals times (M + 1)).entries.length = M ∧
    (insertSeq (TTLCache.mkCache t m) keys vals times (M + 1)).entries =
      (List.range M).map (fun i =>
        (keys (i + 1),
          ({ value := vals (i + 1), expires_at := times (i + 1) + t } : CacheEntry))) := by
  have hev := insertSeq_evicts_first t m ht keys vals times M hM hinj hmono
  refine ⟨?_, ?_, ?_, hev⟩
  · intro ops
    exact runSets_length_le ops (TTLCache.mkCache t m) (le_max_left 1 m)
      (by simp only [TTLCache.mkCache, List.length_nil, Nat.cast_zero]; omega)
  · intro c hc hmsc hcap
    have hne : c.entries ≠ [] := by
      intro h
      rw [h] at hcap
      simp at hcap
      omega
    obtain ⟨p, hmin, hpmem, hple⟩ := minByExpiry_spec c.entries hne
    refine ⟨p, hpmem, hple, fun k v now => ?_⟩
    unfold TTLCache.set
    rw [if_neg (ne_of_gt hc)]
    dsimp only
    rw [if_pos hcap, TTLCache.evictOne, hmin]
  · rw [hev, List.length_map, List.length_range]

/-- Witness for C4: maxsize 2, ttl 10, inserting the three distinct keys
"a", "b", "c" at clock readings 0, 1, 2. -/
theorem c4_witness :
    (0 : ℚ) < 10 ∧ ((2 : ℕ) : ℤ) = max 1 2 ∧
    ((∀ ops, (((TTLCache.mkCache 10 2).runSets ops).entries.length : ℤ) ≤
        (TTLCache.mkCache 10 2).maxsize) ∧
      (∀ c : TTLCache, 0 < c.ttl → 1 ≤ c.maxsize →
        c.maxsize ≤ (c.entries.length : ℤ) →
        ∃ p, p ∈ c.entries ∧ (∀ q ∈ c.entries, p.2.expires_at ≤ q.2.expires_at) ∧
          ∀ k v now, (c.set k v now).entries =
            setKey (removeKey c.entries p.1) k
              { value := v, expires_at := now + c.ttl }) ∧
      (insertSeq (TTLCache.mkCache 10 2)
        (fun i => if i = 0 then "a" else if i = 1 then "b" else "c")
        (fun i => i) (fun i => (i : ℚ)) (2 + 1)).entries.length = 2 ∧
      (insertSeq (TTLCache.mkCache 10 2)
        (fun i => if i = 0 then "a" else if i = 1 then "b" else "c")
        (fun i => i) (fun i => (i : ℚ)) (2 + 1)).entries =
        (List.range 2).map (fun i =>
          (if i + 1 = 0 then "a" else if i + 1 = 1 then "b" else "c",
            ({ value := i + 1,
               expires_at := ((i + 1 : ℕ) : ℚ) + 10 } : CacheEntry)))) := by
  refine ⟨by norm_num, by decide, ?_⟩
  exact c4_capacity_and_eviction 10 2
    (fun i => if i = 0 then "a" else if i = 1 then "b" else "c")
    (fun i => i) (fun i => (i : ℚ)) 2 (by norm_num) (by decide)
    (by
      intro i j hi hj hk
      interval_cases i <;> interval_cases j <;>
        first
          | rfl
          | exact absurd hk (by decide))
    (by
      intro i j hij _
      exact_mod_cast Nat.cast_le.mpr hij)

/-- Updating one key leaves lookups of a different key unchanged. -/
lemma lookupParam_update_ne (ps : List (String × String)) (k v key : String)
    (h : ¬ k = key) :
    lookupParam (updateParam ps k v) key = lookupParam ps key := by
  induction ps with
  | nil => simp [updateParam, lookupParam, h]
  | cons p ps ih =>
    by_cases hp : p.1 = k
    · simp [updateParam, hp, lookupParam, h]
    · simp [updateParam, hp, lookupParam, ih]

/-- Merging options whose keys all differ from `key` leaves the lookup of
`key` unchanged. -/
lemma lookupParam_applyOptions (opts : List (String × Option String)) :
    ∀ (ps : List (String × String)) (key : String),
      (∀ p ∈ opts, ¬ p.1 = key) →
      lookupParam (applyOptions ps opts) key = lookupParam ps key := by
  induction opts with
  | nil => intro ps key _; rfl
  | cons p opts ih =>
    intro ps key h
    have hp : ¬ p.1 = key := h p (by simp)
    have hrest : ∀ q ∈ opts, ¬ q.1 = key := fun q hq => h q (by simp [hq])
    cases hv : p.2 with
    | none => simp [applyOptions, hv, ih ps key hrest]
    | some v =>
      simp [applyOptions, hv, ih _ key hrest, lookupParam_update_ne _ _ _ _ hp]

/-- **C7, counterexample.** The claim says that whenever a page token is
given together with a query, the assembled parameters do not contain `s`.
But the extra options are merged verbatim after the token/query choice,
so an options mapping that itself binds `s` puts `s` (here bound to the
query text) into the parameter set alongside `npt`. -/
theorem c7_counterexample :
    lookupParam (prepareSearchParams "x" (some "tok") [("s", some "x")]) "npt" =
      some "tok" ∧
    lookupParam (prepareSearchParams "x" (some "tok") [("s", some "x")]) "s" =
      some "x" := by
  decide

/-- **C7, amended.** When a non-empty page token is given and the extra
options do not themselves bind the keys `s` or `npt`, the assembled
parameters contain `npt` bound to the token and no `s`; when no page
token is given, they contain `s` bound to the query and no `npt`. -/
theorem c7_amended_token_overrides_query (query t : String)
    (options : List (String × Option String)) (ht : ¬ t = "")
    (hopts : ∀ p ∈ options, ¬ p.1 = "s" ∧ ¬ p.1 = "npt") :
    lookupParam (prepareSearchParams query (some t) options) "npt" = some t ∧
    lookupParam (prepareSearchParams query (some t) options) "s" = none ∧
    lookupParam (prepareSearchParams query none options) "s" = some query ∧
    lookupParam (prepareSearchParams query none options) "npt" = none := by
  have hs : ∀ p ∈ options, ¬ p.1 = "s" := fun p hp => (hopts p hp).1
  have hn : ∀ p ∈ options, ¬ p.1 = "npt" := fun p hp => (hopts p hp).2
  simp only [prepareSearchParams, ht, if_neg ht]
  rw [lookupParam_applyOptions options _ "npt" hn,
    lookupParam_applyOptions options _ "s" hs,
    lookupParam_applyOptions options _ "s" hs,
    lookupParam_applyOptions options _ "npt" hn]
  refine ⟨by simp [lookupParam], by simp [lookupParam], by simp [lookupParam],
    by simp [lookupParam]⟩

/-- Witness for the amended C7 with one harmless extra option. -/
theorem c7_witness :
    ¬ ("tok" : String) = "" ∧
    (∀ p ∈ [(("lang" : String), some ("en" : String))], ¬ p.1 = "s" ∧ ¬ p.1 = "npt") ∧
    (lookupParam (prepareSearchParams "q" (some "tok") [("lang", some "en")]) "npt" =
        some "tok" ∧
      lookupParam (prepareSearchParams "q" (some "tok") [("lang", some "en")]) "s" =
        none ∧
      lookupParam (prepareSearchParams "q" none [("lang", some "en")]) "s" =
        some "q" ∧
      lookupParam (prepareSearchParams "q" none [("lang", some "en")]) "npt" =
        none) :=
  ⟨by decide, by decide,
    c7_amended_token_overrides_query "q" "tok" [("lang", some "en")] (by decide)
      (by decide)⟩

/-- Witness for C6: a 404 on the first attempt with the default
configuration (3 retries remaining). -/
theorem c6_witness :
    0 ≤ defaultConfig.max_retries ∧ (404 : ℕ) ≠ 429 ∧
    request defaultConfig (fun _ => .statusError 404) (fun _ => 0) =
      { calls := 1, sleeps := [], fellThrough := false
        result := .error (.transport (.httpStatus 404)) } :=
  ⟨by decide, by decide,
    c6_non429_fails_immediately defaultConfig (fun _ => .statusError 404)
      (fun _ => 0) 404 (by decide) (by decide) rfl⟩

/-- A config whose timeout is not positive never validates. -/
lemma validate_not_ok_of_timeout {c : Config} (hc : c.timeout ≤ 0) :
    (Config.validate c).isOk = false := by
  cases hv : Config.validate c with
  | error e => rfl
  | ok c' => exact absurd (validate_ok_inv hv).2.1 (by linarith)

/-- **C2, counterexample.** The claim says building from the environment
never raises on out-of-range input.  But `FOURGET_TIMEOUT` is read with
no minimum, so the out-of-range value −5 flows into `_validate`, and
`from_env` raises the timeout error. -/
theorem c2_counterexample :
    Config.fromEnv { Env.empty with timeout := .val (-5) } =
      .error (.timeoutNotPositive (-5)) := by
  decide

/-- **C2, amended.** Building from the environment never raises on
*malformed* values (each falls back to the field's default), and values
below a field's configured minimum also fall back for the fields read
with a minimum (cache_maxsize, max_retries, retry delays, pool bounds);
but `timeout` and `cache_ttl` are read with no minimum, so out-of-range
values for them flow into validation and `from_env` raises — the same
error an explicit construction with that invalid value raises. -/
theorem c2_env_fallback_asymmetry (q : ℚ) (z : ℤ) (tout : ℚ) (c : Config)
    (hq : q < 1/10) (hz : z < 0) (ht : tout ≤ 0) (hc : c.timeout ≤ 0) :
    Config.fromEnv { Env.empty with
      timeout := .malformed, cache_ttl := .malformed, cache_maxsize := .malformed
      max_retries := .malformed, retry_base_delay := .malformed
      retry_max_delay := .malformed, connection_pool_maxsize := .malformed
      connection_pool_max_keepalive := .malformed } = .ok defaultConfig ∧
    Config.fromEnv { Env.empty with
      retry_base_delay := .val q, max_retries := .val z } = .ok defaultConfig ∧
    (Config.fromEnv { Env.empty with timeout := .val tout }).isOk = false ∧
    (Config.validate c).isOk = false := by
  have hurl : rstripSlash "https://4get.ca" = "https://4get.ca" := by decide
  refine ⟨by decide, ?_, ?_, validate_not_ok_of_timeout hc⟩
  · have hbuild : Config.buildFromEnv { Env.empty with
        retry_base_delay := .val q, max_retries := .val z } = defaultConfig := by
      simp [Config.buildFromEnv, Env.empty, readNumber, defaultConfig, hurl, hq, hz]
      intro h
      linarith
    rw [Config.fromEnv, hbuild]
    decide
  · have hbuild : Config.buildFromEnv { Env.empty with timeout := .val tout } =
        { defaultConfig with timeout := tout } := by
      simp [Config.buildFromEnv, Env.empty, readNumber, defaultConfig, hurl]
    rw [Config.fromEnv, hbuild]
    exact validate_not_ok_of_timeout (by simpa using ht)

/-- Witness for the amended C2: below-minimum retry delay 0 and retry
count −1 fall back silently, while timeout −5 makes `from_env` (and
direct validation) fail. -/
theorem c2_witness :
    (0 : ℚ) < 1/10 ∧ (-1 : ℤ) < 0 ∧ (-5 : ℚ) ≤ 0 ∧
    ({ defaultConfig with timeout := -5 } : Config).timeout ≤ 0 ∧
    (Config.fromEnv { Env.empty with
      timeout := .malformed, cache_ttl := .malformed, cache_maxsize := .malformed
      max_retries := .malformed, retry_base_delay := .malformed
      retry_max_delay := .malformed, connection_pool_maxsize := .malformed
      connection_pool_max_keepalive := .malformed } = .ok defaultConfig ∧
    Config.fromEnv { Env.empty with
      retry_base_delay := .val 0, max_retries := .val (-1) } = .ok defaultConfig ∧
    (Config.fromEnv { Env.empty with timeout := .val (-5) }).isOk = false ∧
    (Config.validate { defaultConfig with timeout := -5 }).isOk = false) :=
  ⟨by norm_num, by norm_num, by norm_num, by norm_num,
    c2_env_fallback_asymmetry 0 (-1) (-5) { defaultConfig with timeout := -5 }
      (by norm_num) (by norm_num) (by norm_num) (by norm_num)⟩
